import Mathlib

/-!
Verification of the WTPA2 sample packer/unpacker (src/wtpa2.py) against its
natural-language specification.

The program is Python 2.  The embedding below models:
  * bytearrays and byte strings as `List Nat` (each element a byte value);
  * the output file / source device as an association list of writes
    (newest first), positions unwritten reading as zero (sparse file);
  * the aifc decode capability as an `Option AIFF` attached to each input
    file (decode failure = `none`); `getnframes` agrees with the length of
    the frame data, as it does for a well-formed AIFF file;
  * printed progress lines as an event log carried in the pack state.

Python 2 semantics that matter and are embedded faithfully:
  * bytearray slice assignment `h[a:b] = v` splices `v` in place of the
    slice and may change the length (`sliceAssign`);
  * `/` on ints is floor division;
  * `f.seek(d, 1)` moves relative, `d` possibly negative (modelled through
    integer arithmetic, then `toNat`; every reachable position is
    nonnegative);
  * `os.listdir` partitioning plus `.sort()` sorts names as byte strings.
-/

/-- A sparse file: list of (position, byte) writes, newest first.
Positions never written read back as 0. -/
abbrev PFile := List (Nat × Nat)

/-- Read one byte at a position: the most recent write there, else 0. -/
def readByte : PFile → Nat → Nat
  | [], _ => 0
  | (p, b) :: rest, pos => if p = pos then b else readByte rest pos

/-- Write one byte. -/
def writeByte (f : PFile) (pos b : Nat) : PFile := (pos, b) :: f

/-- Write a run of bytes starting at a position. -/
def writeBytes (f : PFile) (pos : Nat) : List Nat → PFile
  | [] => f
  | b :: bs => writeBytes (writeByte f pos b) (pos + 1) bs

/-- Read a run of `n` bytes starting at `pos`. -/
def readBytesAt (f : PFile) (pos n : Nat) : List Nat :=
  (List.range n).map (fun i => readByte f (pos + i))

/-- Python 2 bytearray slice assignment `l[a:b] = v` (for `a ≤ b`):
the elements of the slice are replaced by all of `v`, so the length
changes by `v.length - (b - a)`. -/
def sliceAssign (l : List Nat) (a b : Nat) (v : List Nat) : List Nat :=
  l.take a ++ v ++ l.drop b

/-- struct.pack '>I': 4-byte big-endian encoding. -/
def be32 (n : Nat) : List Nat :=
  [n / 16777216 % 256, n / 65536 % 256, n / 256 % 256, n % 256]

/-- struct.unpack '>I' of a 4-byte list. -/
def be32dec (bs : List Nat) : Nat :=
  bs.getD 0 0 * 16777216 + bs.getD 1 0 * 65536 + bs.getD 2 0 * 256 + bs.getD 3 0

/-- ASCII bytes of "WTPA". -/
def wtpaBytes : List Nat := [87, 84, 80, 65]

/-- ASCII bytes of "SAMP". -/
def sampBytes : List Nat := [83, 65, 77, 80]

/-- `self.toc_offset` from `WTPA2.__init__`. -/
def toc_offset : Nat := 16

/-- A decoded AIFF input as exposed by the aifc module. -/
structure AIFF where
  sampwidth : Nat
  nchannels : Nat
  framerate : Nat
  frames : List Nat
deriving DecidableEq, Repr

/-- `getnframes`: for a well-formed AIFF this is the frame-data length
(1 byte per frame at sample width 1). -/
def AIFF.nframes (s : AIFF) : Nat := s.frames.length

/-- Progress lines printed by the packer, as events. -/
inductive Ev where
  | processingFile (path : List Nat)
  | processingDir (path : List Nat)
  | skippedMissing (path : List Nat)
  | skippedNotAiff
  | skippedWidth (w : Nat)
  | skippedChannels (c : Nat)
  | skippedTooLong (n : Nat)
  | warnedRate (r : Nat)
  | wroteSlot (n : Nat)
deriving DecidableEq, Repr

/-- Mutable state of the WTPA2 object during `pack`, plus the output file
and the printed log made explicit. -/
structure PackState where
  num_samples : Nat
  header : List Nat
  pos : Nat
  out : PFile
  log : List Ev
deriving DecidableEq, Repr

/-- Line 174 of the source: mark the bitmap bit for sample number `n`:
`header[toc_offset + n/8] |= 1 << (n % 8)`. -/
def mark_slot (header : List Nat) (n : Nat) : List Nat :=
  header.set (toc_offset + n / 8)
    (header.getD (toc_offset + n / 8) 0 ||| (1 <<< (n % 8)))

/-- Lines 118-124 of the source, `WTPA2.sample_in_slot`:
`ord(header[toc_offset + slot/8]) & (1 << slot)` — note the shift amount
is `slot`, not `slot % 8`, exactly as written in the code. -/
def sample_in_slot (header : List Nat) (slot : Nat) : Bool :=
  (header.getD (toc_offset + slot / 8) 0) &&& (1 <<< slot) != 0

/-- `WTPA2.process_file` (lines 147-184): filter one candidate file and, if
accepted, write its slot.  `dec` is the result of `aifc.open` plus the
property reads (`none` = aifc.Error). -/
def process_file (st : PackState) (path : List Nat) (dec : Option AIFF) :
    PackState :=
  let st := { st with log := st.log ++ [Ev.processingFile path] }
  match dec with
  | none => { st with log := st.log ++ [Ev.skippedNotAiff] }
  | some s =>
    if s.sampwidth ≠ 1 then
      { st with log := st.log ++ [Ev.skippedWidth s.sampwidth] }
    else if s.nchannels ≠ 1 then
      { st with log := st.log ++ [Ev.skippedChannels s.nchannels] }
    else if s.nframes > 512 * 1024 then
      { st with log := st.log ++ [Ev.skippedTooLong s.nframes] }
    else
      let st :=
        if s.framerate ≠ 22050 then
          { st with log := st.log ++ [Ev.warnedRate s.framerate] }
        else st
      let st := { st with log := st.log ++ [Ev.wroteSlot st.num_samples] }
      let header := mark_slot st.header st.num_samples
      let out := writeBytes st.out st.pos (be32 s.nframes)
      let out := writeBytes out (st.pos + 4) s.frames
      let pos :=
        (((st.pos + 4 + s.frames.length : Nat) : Int) +
          (512 * 1024 - (s.frames.length : Int) - 4)).toNat
      { num_samples := st.num_samples + 1, header := header, pos := pos,
        out := out, log := st.log }

/-- A directory entry: a regular file (with its decode result) or a
subdirectory. -/
inductive Entry where
  | file (name : List Nat) (dec : Option AIFF)
  | dir (name : List Nat) (entries : List Entry)

def Entry.name : Entry → List Nat
  | .file n _ => n
  | .dir n _ => n

/-- `os.path.isfile` on a directory entry. -/
def Entry.isFile : Entry → Bool
  | .file _ _ => true
  | .dir _ _ => false

def Entry.dec : Entry → Option AIFF
  | .file _ d => d
  | .dir _ _ => none

/-- Python byte-string `<=` (lexicographic on byte values). -/
def bytesLe : List Nat → List Nat → Bool
  | [], _ => true
  | _ :: _, [] => false
  | a :: as, b :: bs =>
    if a < b then true else if b < a then false else bytesLe as bs

/-- Insert an entry into a name-sorted list, before any entry of equal
name (the inserted entry precedes equal keys from later in the original
list, which is what stability requires in a right fold). -/
def insertByName (e : Entry) : List Entry → List Entry
  | [] => [e]
  | x :: xs =>
    if bytesLe e.name x.name then e :: x :: xs else x :: insertByName e xs

/-- `list.sort()` on entry names.  Python sorts byte strings
lexicographically with a stable sort; every stable sort by the same key
produces the same list, so a stable insertion sort models it exactly. -/
def sortEntries (l : List Entry) : List Entry :=
  l.foldr insertByName []

/-- `os.path.join` (posix). -/
def pathJoin (a b : List Nat) : List Nat := a ++ [47] ++ b

/-- Tree height of an entry, used as recursion fuel for `process_dir`. -/
def depthE : Entry → Nat
  | .file _ _ => 1
  | .dir _ es => 1 + depthL es
where
  /-- Maximum height over a list of entries. -/
  depthL : List Entry → Nat
  | [] => 0
  | e :: es => max (depthE e) (depthL es)

/-- `WTPA2.process_dir` (lines 127-145): files at this level first, in
sorted order, then subdirectories, in sorted order.  `fuel` dominates the
tree height (the Python recursion is bounded by the directory tree). -/
def process_dir : Nat → PackState → List Nat → List Entry → PackState
  | 0, st, _, _ => st
  | fuel + 1, st, path, es =>
    let st := { st with log := st.log ++ [Ev.processingDir path] }
    let files := sortEntries (es.filter Entry.isFile)
    let dirs := sortEntries (es.filter (fun e => !e.isFile))
    let st := files.foldl
      (fun acc e => process_file acc (pathJoin path e.name) e.dec) st
    dirs.foldl
      (fun acc e =>
        match e with
        | .dir n es2 => process_dir fuel acc (pathJoin path n) es2
        | .file _ _ => acc) st
  termination_by structural fuel _ _ _ => fuel

/-- One element of the `infiles` argument of `pack`: a missing path, a
regular file, or a directory. -/
inductive InputPath where
  | missing (name : List Nat)
  | file (name : List Nat) (dec : Option AIFF)
  | dir (name : List Nat) (entries : List Entry)

/-- The header value after the two slice assignments at the top of `pack`:
`header[0:3] = "WTPA"; header[4:7] = "SAMP"` on `bytearray(512)`. -/
def packInitHeader : List Nat :=
  sliceAssign (sliceAssign (List.replicate 512 0) 0 3 wtpaBytes) 4 7 sampBytes

/-- The pack state right after `pack` opens the output and seeks to 512. -/
def packInitState : PackState :=
  { num_samples := 0, header := packInitHeader, pos := 512, out := [],
    log := [] }

/-- One iteration of the infile loop of `WTPA2.pack` (lines 30-37). -/
def packStep (fuel : Nat) (st : PackState) (i : InputPath) : PackState :=
  match i with
  | .missing n => { st with log := st.log ++ [Ev.skippedMissing n] }
  | .file n d => process_file st n d
  | .dir n es => process_dir fuel st n es

/-- The infile loop of `WTPA2.pack` (lines 30-37), before the header
flush. -/
def packBody (fuel : Nat) (infiles : List InputPath) : PackState :=
  infiles.foldl (packStep fuel) packInitState

/-- `WTPA2.pack` (lines 19-41): process all inputs, then seek to 0 and
write the header. -/
def pack (fuel : Nat) (infiles : List InputPath) : PackState :=
  let st := packBody fuel infiles
  { st with pos := st.header.length, out := writeBytes st.out 0 st.header }

/-- The 512-byte header read at the start of `unpack`
(`self.header = self.outfile.read(512)`). -/
def headerOf (f : PFile) : List Nat := readBytesAt f 0 512

/-- `WTPA2.seek_to_slot` (lines 112-116): `seek(512); seek(512*1024*slot, 1)`. -/
def seek_to_slot (slot : Nat) : Nat := 512 + 512 * 1024 * slot

/-- The 4-byte big-endian count at the start of a slot. -/
def slotCount (f : PFile) (slot : Nat) : Nat :=
  be32dec (readBytesAt f (seek_to_slot slot) 4)

/-- The frame bytes `unpack` reads for a slot:
`self.outfile.read(size[0])` right after the 4-byte count. -/
def readSlotFrames (f : PFile) (slot : Nat) : List Nat :=
  readBytesAt f (seek_to_slot slot + 4) (slotCount f slot)

/-- The slot scan of `unpack` (lines 92-108): for each index below
`samples`, if the bitmap marks the slot, emit the output file
`(index, frame bytes)`. -/
def scanSlots (f : PFile) (header : List Nat) (samples : Nat) :
    List (Nat × List Nat) :=
  (List.range samples).filterMap
    (fun x =>
      if sample_in_slot header x then some (x, readSlotFrames f x) else none)

/-- `WTPA2.unpack` (lines 83-110), from the point where source and
destination checks passed: read the header, validate the two magics,
then scan.  The result lists the sample files written, in order. -/
def unpackArchive (f : PFile) (samples : Nat) : List (Nat × List Nat) :=
  let header := headerOf f
  if header.take 4 ≠ wtpaBytes then []
  else if (header.drop 4).take 4 ≠ sampBytes then []
  else scanSlots f header samples

/-- The list of paths for which a "Processing file ..." line was printed,
in order — the order in which `process_file` was invoked, which is the
order slot indices are handed out (every accepted file takes the next
slot at its processing moment). -/
def filesProcessed (log : List Ev) : List (List Nat) :=
  log.filterMap (fun e =>
    match e with
    | .processingFile p => some p
    | _ => none)

/-- Modelled from the spec, §4.2 step 2 ("list entries once; partition
into regular files and subdirectories; process files in lexicographic
order first, then recurse into subdirectories in lexicographic order"):
the order of file paths a directory walk processes, written from the
spec's words for comparison with the embedded `process_dir`. -/
def specDirOrder : Nat → List Nat → List Entry → List (List Nat)
  | 0, _, _ => []
  | fuel + 1, path, es =>
    let p := es.partition Entry.isFile
    (sortEntries p.1).map (fun e => pathJoin path e.name) ++
      ((sortEntries p.2).map (fun e =>
        match e with
        | .dir n es2 => specDirOrder fuel (pathJoin path n) es2
        | .file _ _ => [])).flatten
  termination_by structural fuel _ _ => fuel

/-- An eligible one-frame sample whose single frame byte is `k + 1`. -/
def mkSample (k : Nat) : AIFF := ⟨1, 1, 22050, [k + 1]⟩

/-- Nine eligible input files, frame bytes 1..9. -/
def nineInputs : List InputPath :=
  (List.range 9).map (fun k => .file [48 + k] (some (mkSample k)))

/-- 513 eligible one-frame input files. -/
def eligIn (n : Nat) : List InputPath :=
  (List.range n).map (fun k => .file [k % 256] (some ⟨1, 1, 22050, [0]⟩))

/-- An input that is a regular file holding an eligible sample: decodes,
8-bit, mono, within the frame limit. -/
def EligFile (i : InputPath) : Prop :=
  ∃ n s, i = InputPath.file n (some s) ∧ s.sampwidth = 1 ∧
    s.nchannels = 1 ∧ s.frames.length ≤ 512 * 1024

/-- An eligible sample at the maximum accepted frame count, 524288. -/
def s524288 : AIFF := ⟨1, 1, 22050, List.replicate (512 * 1024) 37⟩

/-- The directory of testable property 7: files "b.aiff" and "a.aiff"
(names here shortened to single bytes b, a) and a subdirectory z
containing c. -/
def exDirEntries : List Entry :=
  [.file [98] (some ⟨1, 1, 22050, [2]⟩),
   .file [97] (some ⟨1, 1, 22050, [1]⟩),
   .dir [122] [.file [99] (some ⟨1, 1, 22050, [3]⟩)]]

/-- A source whose header has valid magics, slot 0 marked, and a slot-0
frame count of 524285 — larger than the 524284 that fits in a slot. -/
def c9File : PFile :=
  writeBytes
    (writeBytes (writeBytes (writeBytes [] 0 wtpaBytes) 4 sampBytes) 16 [1])
    512 [0, 7, 255, 253]

/-!  ## Theorems  -/

set_option maxRecDepth 100000

/-- Earlier writes survive later `writeBytes` (the write list only
grows). -/
theorem mem_writeBytes_mono (bs : List Nat) (f : PFile) (pos : Nat)
    (x : Nat × Nat) (h : x ∈ f) : x ∈ writeBytes f pos bs := by
  induction bs generalizing f pos with
  | nil => simpa [writeBytes] using h
  | cons b bs ih => exact ih (writeByte f pos b) (pos + 1) (by simp [writeByte, h])

/-- Each byte of a `writeBytes` run is present in the resulting file. -/
theorem mem_writeBytes_getD (bs : List Nat) (f : PFile) (pos i : Nat)
    (h : i < bs.length) : (pos + i, bs.getD i 0) ∈ writeBytes f pos bs := by
  induction bs generalizing f pos i with
  | nil => simp at h
  | cons b bs ih =>
    cases i with
    | zero =>
      simpa using mem_writeBytes_mono bs (writeByte f pos b) (pos + 1)
        (pos, b) (by simp [writeByte])
    | succ i =>
      have h2 := ih (writeByte f pos b) (pos + 1) i (by simpa using h)
      have e1 : pos + (i + 1) = (pos + 1) + i := by omega
      rw [e1, List.getD_cons_succ]
      exact h2

/-- Every entry of `writeBytes f pos bs` is an old entry of `f` or lies
in the written range `[pos, pos + bs.length)`. -/
theorem mem_writeBytes_ran (bs : List Nat) (f : PFile) (pos : Nat)
    (x : Nat × Nat) (h : x ∈ writeBytes f pos bs) :
    x ∈ f ∨ (pos ≤ x.1 ∧ x.1 < pos + bs.length) := by
  induction bs generalizing f pos with
  | nil => exact Or.inl (by simpa [writeBytes] using h)
  | cons b bs ih =>
    rcases ih (writeByte f pos b) (pos + 1) h with h2 | h2
    · rcases (by simpa [writeByte] using h2 : x = (pos, b) ∨ x ∈ f) with rfl | h3
      · exact Or.inr (by simp)
      · exact Or.inl h3
    · refine Or.inr ?_
      simp only [List.length_cons]
      omega

/-- What `process_file` does to an accepted (eligible) sample: bitmap bit
of the current sample number set, count and frames written at the current
position, position advanced by exactly one slot (512 KiB), sample counter
incremented, progress lines logged. -/
theorem process_file_accepts (st : PackState) (path : List Nat) (s : AIFF)
    (h1 : s.sampwidth = 1) (h2 : s.nchannels = 1)
    (h3 : s.frames.length ≤ 512 * 1024) :
    process_file st path (some s) =
      { num_samples := st.num_samples + 1,
        header := mark_slot st.header st.num_samples,
        pos := st.pos + 512 * 1024,
        out := writeBytes (writeBytes st.out st.pos (be32 s.nframes))
          (st.pos + 4) s.frames,
        log := st.log ++ [Ev.processingFile path] ++
          (if s.framerate ≠ 22050 then [Ev.warnedRate s.framerate] else []) ++
          [Ev.wroteSlot st.num_samples] } := by
  unfold process_file
  have hn : ¬ (s.nframes > 512 * 1024) := by
    simp only [AIFF.nframes]
    omega
  by_cases hr : s.framerate = 22050 <;>
    simp [h1, h2, hn, hr] <;>
    omega

/-- `process_file` never erases already-logged events. -/
theorem mem_log_process_file (st : PackState) (path : List Nat)
    (dec : Option AIFF) (e : Ev) (h : e ∈ st.log) :
    e ∈ (process_file st path dec).log := by
  unfold process_file
  cases dec with
  | none => simp [h]
  | some s =>
    by_cases hw : s.sampwidth ≠ 1
    · simp [hw, h]
    · by_cases hc : s.nchannels ≠ 1
      · simp [hw, hc, h]
      · by_cases hn : s.nframes > 512 * 1024
        · simp [hw, hc, hn, h]
        · by_cases hr : s.framerate ≠ 22050 <;> simp [hw, hc, hn, hr, h]

/-- C2: the claim says the header `pack` writes at offset 0 is exactly 512
bytes, so the slot region at offset 512 is untouched by the header flush.
In the code the two slice assignments `header[0:3] = "WTPA"` and
`header[4:7] = "SAMP"` each replace a 3-byte slice with 4 bytes, growing
the bytearray to 514 bytes; the magic bytes 0..7 do come out as
"WTPASAMP", but the final flush writes 514 bytes at offset 0, covering
file offsets 512 and 513 — the first two bytes of slot 0. -/
theorem c2_header_flush_is_514_bytes :
    (pack 0 []).header.length = 514 ∧
    (pack 0 []).header.take 8 = wtpaBytes ++ sampBytes ∧
    (512, 0) ∈ (pack 0 []).out ∧
    (513, 0) ∈ (pack 0 []).out ∧
    ((pack 0 []).out.all fun pb => pb.1 < 514) = true := by
  decide

/-- C3: marking slot `i` (line 174) does set bit `i % 8` of bitmap byte
`i / 8` — shown for `i = 8`, which lands in byte 17 as bit 0.  But the
presence test `sample_in_slot` (line 121) shifts by `slot`, not
`slot % 8`, so after marking slot `i` the test reads the mark back only
for `i < 8`; for every `i ≥ 8` it returns false.  For a marked slot
below 8 the test is correct on all other indices. -/
theorem c3_mark_then_test_fails_from_slot8 :
    mark_slot (List.replicate 512 0) 8 = (List.replicate 512 0).set 17 1 ∧
    sample_in_slot (mark_slot (List.replicate 512 0) 8) 8 = false ∧
    ((List.range 512).all fun i =>
      sample_in_slot (mark_slot (List.replicate 512 0) i) i ==
        decide (i < 8)) = true ∧
    ((List.range 512).all fun j =>
      sample_in_slot (mark_slot (List.replicate 512 0) 3) j ==
        decide (j = 3)) = true := by
  decide

/-- C8: a mono 8-bit sample within the frame limit whose frame rate is not
22050 is still packed — counter incremented, bitmap bit of the current
sample number set, position advanced a full slot — and the log gains a
rate warning rather than any skip line. -/
theorem c8_rate_warning_still_packs (st : PackState) (path : List Nat)
    (s : AIFF) (h1 : s.sampwidth = 1) (h2 : s.nchannels = 1)
    (h3 : s.frames.length ≤ 512 * 1024) (h4 : s.framerate ≠ 22050) :
    (process_file st path (some s)).num_samples = st.num_samples + 1 ∧
    (process_file st path (some s)).header = mark_slot st.header st.num_samples ∧
    (process_file st path (some s)).pos = st.pos + 512 * 1024 ∧
    (process_file st path (some s)).log =
      st.log ++ [Ev.processingFile path, Ev.warnedRate s.framerate,
        Ev.wroteSlot st.num_samples] := by
  rw [process_file_accepts st path s h1 h2 h3]
  simp [h4]

/-- C8 witness: a 44100 Hz mono 8-bit one-frame sample is packed into
slot 0 with a warning. -/
theorem c8_witness :
    (process_file packInitState [102] (some ⟨1, 1, 44100, [7]⟩)).num_samples =
      packInitState.num_samples + 1 ∧
    (process_file packInitState [102] (some ⟨1, 1, 44100, [7]⟩)).header =
      mark_slot packInitState.header packInitState.num_samples ∧
    (process_file packInitState [102] (some ⟨1, 1, 44100, [7]⟩)).pos =
      packInitState.pos + 512 * 1024 ∧
    (process_file packInitState [102] (some ⟨1, 1, 44100, [7]⟩)).log =
      packInitState.log ++ [Ev.processingFile [102], Ev.warnedRate 44100,
        Ev.wroteSlot packInitState.num_samples] :=
  c8_rate_warning_still_packs packInitState [102] ⟨1, 1, 44100, [7]⟩
    (by decide) (by decide) (by decide) (by decide)

/-- C10: every skip path of `process_file` — decode failure, wrong sample
width, wrong channel count, or excessive frame count — leaves the bitmap
(header), the sample counter, the output position and the output bytes
exactly as they were (only the printed log grows). -/
theorem c10_skip_leaves_state_unchanged (st : PackState) (path : List Nat)
    (dec : Option AIFF)
    (h : dec = none ∨ ∃ s, dec = some s ∧
      (s.sampwidth ≠ 1 ∨ s.nchannels ≠ 1 ∨ s.frames.length > 512 * 1024)) :
    (process_file st path dec).header = st.header ∧
    (process_file st path dec).num_samples = st.num_samples ∧
    (process_file st path dec).pos = st.pos ∧
    (process_file st path dec).out = st.out := by
  rcases h with rfl | ⟨s, rfl, hs⟩
  · simp [process_file]
  · unfold process_file
    have hnf : s.nframes = s.frames.length := rfl
    by_cases hw : s.sampwidth ≠ 1
    · simp [hw]
    · by_cases hc : s.nchannels ≠ 1
      · simp [hw, hc]
      · by_cases hn : s.nframes > 512 * 1024
        · simp [hw, hc, hn]
        · exfalso
          rcases hs with h1 | h1 | h1 <;> omega

/-- C10 witness: a 2-byte-wide sample is skipped with no state change. -/
theorem c10_witness :
    (process_file packInitState [101] (some ⟨2, 1, 22050, [1]⟩)).header =
      packInitState.header ∧
    (process_file packInitState [101] (some ⟨2, 1, 22050, [1]⟩)).num_samples =
      packInitState.num_samples ∧
    (process_file packInitState [101] (some ⟨2, 1, 22050, [1]⟩)).pos =
      packInitState.pos ∧
    (process_file packInitState [101] (some ⟨2, 1, 22050, [1]⟩)).out =
      packInitState.out :=
  c10_skip_leaves_state_unchanged packInitState [101] (some ⟨2, 1, 22050, [1]⟩)
    (Or.inr ⟨⟨2, 1, 22050, [1]⟩, rfl, Or.inl (by decide)⟩)

/-- C5 counterexample: an eligible sample with exactly 524288 frames is
accepted by the filter (`getnframes() > 512*1024` is false), yet its slot
payload is 4 + 524288 = 524292 bytes, exceeding the 524288-byte slot —
the claim "payload never exceeds 524288, oversized inputs are rejected"
is false at this input. -/
theorem c5_counterexample :
    (process_file packInitState [103] (some s524288)).num_samples = 1 ∧
    4 + s524288.nframes = 524292 ∧
    4 + s524288.nframes > 512 * 1024 := by
  have hlen : s524288.frames.length = 512 * 1024 := by
    show (List.replicate (512 * 1024) 37).length = 512 * 1024
    rw [List.length_replicate]
  have hnf : s524288.nframes = 512 * 1024 := hlen
  have hacc := process_file_accepts packInitState [103] s524288 rfl rfl
    (le_of_eq hlen)
  refine ⟨?_, ?_, ?_⟩
  · rw [hacc]
    rfl
  · rw [hnf]
  · rw [hnf]
    omega

/-- C5 as amended: an accepted sample has frame count at most 524288, so
its payload (4-byte prefix plus frames) is at most 524292 bytes and its
writes stay inside `[slot start, slot start + 4 + frame count)` — which
may extend up to 4 bytes into the next slot region; the position for the
next sample is nevertheless the next slot start. -/
theorem c5_payload_bound (st : PackState) (path : List Nat) (s : AIFF)
    (h1 : s.sampwidth = 1) (h2 : s.nchannels = 1)
    (h3 : s.frames.length ≤ 512 * 1024) :
    (process_file st path (some s)).num_samples = st.num_samples + 1 ∧
    4 + s.nframes ≤ 524292 ∧
    (process_file st path (some s)).pos = st.pos + 512 * 1024 ∧
    ∀ x ∈ (process_file st path (some s)).out,
      x ∈ st.out ∨ (st.pos ≤ x.1 ∧ x.1 < st.pos + 4 + s.nframes) := by
  have hnf : s.nframes = s.frames.length := rfl
  rw [process_file_accepts st path s h1 h2 h3]
  refine ⟨rfl, by omega, rfl, ?_⟩
  intro x hx
  rcases mem_writeBytes_ran s.frames _ (st.pos + 4) x hx with h4 | h4
  · rcases mem_writeBytes_ran (be32 s.nframes) st.out st.pos x h4 with h5 | h5
    · exact Or.inl h5
    · have hb : (be32 s.nframes).length = 4 := rfl
      rw [hb] at h5
      exact Or.inr ⟨h5.1, by omega⟩
  · exact Or.inr ⟨by omega, by omega⟩

/-- C5 amended witness: a one-frame sample is packed with all writes in
its own slot region. -/
theorem c5_payload_bound_witness :
    (process_file packInitState [104] (some ⟨1, 1, 22050, [5]⟩)).num_samples =
      packInitState.num_samples + 1 ∧
    4 + AIFF.nframes ⟨1, 1, 22050, [5]⟩ ≤ 524292 ∧
    (process_file packInitState [104] (some ⟨1, 1, 22050, [5]⟩)).pos =
      packInitState.pos + 512 * 1024 ∧
    ∀ x ∈ (process_file packInitState [104] (some ⟨1, 1, 22050, [5]⟩)).out,
      x ∈ packInitState.out ∨
        (packInitState.pos ≤ x.1 ∧
          x.1 < packInitState.pos + 4 + AIFF.nframes ⟨1, 1, 22050, [5]⟩) :=
  c5_payload_bound packInitState [104] ⟨1, 1, 22050, [5]⟩
    (by decide) (by decide) (by decide)


/-- Folding eligible-file inputs never erases already-logged events. -/
theorem packBody_log_mono (fuel : Nat) (l : List InputPath) (st : PackState)
    (h : ∀ i ∈ l, EligFile i) (e : Ev) (he : e ∈ st.log) :
    e ∈ (l.foldl (packStep fuel) st).log := by
  induction l generalizing st with
  | nil => simpa using he
  | cons i l ih =>
    obtain ⟨n, s, rfl, _, _, _⟩ := h i (List.mem_cons_self i l)
    simp only [List.foldl_cons]
    exact ih (process_file st n (some s))
      (fun j hj => h j (List.mem_cons_of_mem _ hj))
      (mem_log_process_file st n (some s) e he)

/-- Folding a list of eligible input files through the pack loop: each
file takes the next slot — counter up by the list length, position
advanced one full slot per file, bitmap bits marked consecutively, and a
"wrote slot" line logged for every file. -/
theorem packBody_eligible (fuel : Nat) (l : List InputPath) (st : PackState)
    (h : ∀ i ∈ l, EligFile i) :
    (l.foldl (packStep fuel) st).num_samples = st.num_samples + l.length ∧
    (l.foldl (packStep fuel) st).pos = st.pos + l.length * (512 * 1024) ∧
    (l.foldl (packStep fuel) st).header =
      (List.range l.length).foldl
        (fun h2 k => mark_slot h2 (st.num_samples + k)) st.header ∧
    ∀ k, k < l.length →
      Ev.wroteSlot (st.num_samples + k) ∈ (l.foldl (packStep fuel) st).log := by
  induction l generalizing st with
  | nil => simp
  | cons i l ih =>
    obtain ⟨n, s, rfl, h1, h2, h3⟩ := h i (List.mem_cons_self i l)
    have hstep := process_file_accepts st n s h1 h2 h3
    have hn1 : (process_file st n (some s)).num_samples = st.num_samples + 1 := by
      rw [hstep]
    have hp1 : (process_file st n (some s)).pos = st.pos + 512 * 1024 := by
      rw [hstep]
    have hh1 : (process_file st n (some s)).header =
        mark_slot st.header st.num_samples := by
      rw [hstep]
    have hlog : Ev.wroteSlot st.num_samples ∈ (process_file st n (some s)).log := by
      rw [hstep]
      simp
    obtain ⟨ihn, ihp, ihh, ihl⟩ := ih (process_file st n (some s))
      (fun j hj => h j (List.mem_cons_of_mem _ hj))
    refine ⟨?_, ?_, ?_, ?_⟩
    · simp only [List.foldl_cons, List.length_cons]
      rw [show packStep fuel st (InputPath.file n (some s)) =
        process_file st n (some s) from rfl]
      rw [ihn, hn1]
      omega
    · simp only [List.foldl_cons, List.length_cons]
      rw [show packStep fuel st (InputPath.file n (some s)) =
        process_file st n (some s) from rfl]
      rw [ihp, hp1]
      ring
    · simp only [List.foldl_cons, List.length_cons]
      rw [show packStep fuel st (InputPath.file n (some s)) =
        process_file st n (some s) from rfl]
      rw [ihh, hn1, hh1, List.range_succ_eq_map, List.foldl_cons,
        List.foldl_map]
      congr 1
      funext h2 k
      congr 1
      omega
    · intro k hk
      simp only [List.foldl_cons]
      rw [show packStep fuel st (InputPath.file n (some s)) =
        process_file st n (some s) from rfl]
      cases k with
      | zero =>
        rw [Nat.add_zero]
        exact packBody_log_mono fuel l (process_file st n (some s))
          (fun j hj => h j (List.mem_cons_of_mem _ hj)) _ hlog
      | succ k =>
        have e1 : st.num_samples + (k + 1) = st.num_samples + 1 + k := by omega
        rw [e1, ← hn1]
        exact ihl k (by simpa using hk)

/-- C4: the claim says that with 513 eligible samples exactly 512 are
packed and the 513th is rejected with an "archive full" condition.  The
code has no capacity check: all 513 are packed — the counter reaches 513,
the 513th sample is written at the slot-512 region (file offset
512 + 512·524288; the final position is one more slot further), and its
bitmap bit lands in header byte 80, one past the 64-byte bitmap (no
modulo-512 wraparound, so the bitmap proper is full but not corrupted —
bytes 16..79 all 255, byte 80 = 1). -/
theorem c4_all_513_packed_no_full_check :
    (packBody 0 (eligIn 513)).num_samples = 513 ∧
    (packBody 0 (eligIn 513)).pos = 512 + 513 * (512 * 1024) ∧
    Ev.wroteSlot 512 ∈ (packBody 0 (eligIn 513)).log ∧
    ((packBody 0 (eligIn 513)).header.drop 16).take 65 =
      List.replicate 64 255 ++ [1] := by
  have helig : ∀ i ∈ eligIn 513, EligFile i := by
    intro i hi
    simp only [eligIn, List.mem_map, List.mem_range] at hi
    obtain ⟨k, _, rfl⟩ := hi
    exact ⟨[k % 256], ⟨1, 1, 22050, [0]⟩, rfl, rfl, rfl, by simp⟩
  obtain ⟨hn, hp, hh, hl⟩ := packBody_eligible 0 (eligIn 513) packInitState helig
  have hlen : (eligIn 513).length = 513 := by simp [eligIn]
  rw [hlen] at hn hp hh hl
  have h0 : packInitState.num_samples = 0 := rfl
  refine ⟨?_, ?_, ?_, ?_⟩
  · rw [packBody, hn, h0]
  · rw [packBody, hp, show packInitState.pos = 512 from rfl]
  · have := hl 512 (by omega)
    rw [h0] at this
    rw [packBody]
    exact this
  · rw [packBody, hh]
    have efun : (fun h2 k => mark_slot h2 (packInitState.num_samples + k)) =
        mark_slot := by
      funext h2 k
      rw [h0, Nat.zero_add]
    rw [efun]
    have ehd : packInitState.header = packInitHeader := rfl
    rw [ehd]
    decide


/-- C6: if the first 8 bytes of the source are not exactly "WTPASAMP"
(the two 4-byte magic checks of `unpack`, lines 87-90), the slot scan is
never entered and zero output sample files are produced; if they are
exactly "WTPASAMP", the scan over the slots proceeds. -/
theorem c6_magic_gate (f : PFile) (n : Nat) :
    ((headerOf f).take 8 ≠ wtpaBytes ++ sampBytes → unpackArchive f n = []) ∧
    ((headerOf f).take 8 = wtpaBytes ++ sampBytes →
      unpackArchive f n = scanSlots f (headerOf f) n) := by
  have hlen : (headerOf f).length = 512 := by
    simp [headerOf, readBytesAt]
  have hsplit : (headerOf f).take 8 =
      (headerOf f).take 4 ++ ((headerOf f).drop 4).take 4 := by
    rw [show (8 : Nat) = 4 + 4 from rfl, List.take_add]
  constructor
  · intro hne
    unfold unpackArchive
    by_cases h1 : (headerOf f).take 4 = wtpaBytes
    · by_cases h2 : ((headerOf f).drop 4).take 4 = sampBytes
      · exact absurd (by rw [hsplit, h1, h2]) hne
      · simp [h1, h2]
    · simp [h1]
  · intro heq
    rw [hsplit] at heq
    have h12 := List.append_inj heq
      (by rw [List.length_take, hlen]; rfl)
    unfold unpackArchive
    simp [h12.1, h12.2]

/-- C6 witness: an all-zero source fails the magic check and yields no
output files. -/
theorem c6_witness : unpackArchive [] 512 = [] :=
  (c6_magic_gate [] 512).1 (by decide)

/-- C9: `unpack` performs no validation of the stored per-slot frame
count against the slot size.  Any marked slot is extracted with exactly
`count` bytes read starting right after the 4-byte prefix; byte `i` of the
output is the source byte at `slot start + 4 + i`; and whenever the count
exceeds 524284 the read range ends past the start of the next slot, so
bytes of subsequent slots are read and written into this slot's output
file. -/
theorem c9_no_slot_length_validation (f : PFile) (n x : Nat) (hx : x < n)
    (h1 : (headerOf f).take 4 = wtpaBytes)
    (h2 : ((headerOf f).drop 4).take 4 = sampBytes)
    (h3 : sample_in_slot (headerOf f) x = true)
    (hc : slotCount f x > 524284) :
    (x, readSlotFrames f x) ∈ unpackArchive f n ∧
    (readSlotFrames f x).length = slotCount f x ∧
    (∀ i, i < slotCount f x →
      (readSlotFrames f x).getD i 0 = readByte f (seek_to_slot x + 4 + i)) ∧
    seek_to_slot x + 4 + slotCount f x > seek_to_slot (x + 1) := by
  refine ⟨?_, ?_, ?_, ?_⟩
  · unfold unpackArchive
    simp only [h1, h2, ne_eq, not_true_eq_false, if_false, ite_false,
      if_neg, not_false_eq_true]
    unfold scanSlots
    refine List.mem_filterMap.mpr ⟨x, List.mem_range.mpr hx, ?_⟩
    rw [if_pos h3]
  · simp [readSlotFrames, readBytesAt]
  · intro i hi
    unfold readSlotFrames readBytesAt
    rw [List.getD_eq_getElem?_getD, List.getElem?_map,
      List.getElem?_range hi]
    rfl
  · simp only [seek_to_slot]
    omega

/-- C9 witness: a source with valid magics, slot 0 marked and a slot-0
count of 524285 is extracted, reading past the slot boundary. -/
theorem c9_witness :
    (0, readSlotFrames c9File 0) ∈ unpackArchive c9File 1 ∧
    (readSlotFrames c9File 0).length = slotCount c9File 0 ∧
    (∀ i, i < slotCount c9File 0 →
      (readSlotFrames c9File 0).getD i 0 = readByte c9File (seek_to_slot 0 + 4 + i)) ∧
    seek_to_slot 0 + 4 + slotCount c9File 0 > seek_to_slot (0 + 1) :=
  c9_no_slot_length_validation c9File 1 0 (by decide) (by decide) (by decide)
    (by decide) (by decide)

/-- C1: the claim states the pack/unpack round trip returns every packed
sample.  Packing nine eligible one-frame samples (frame bytes 1..9)
accepts all nine and the written file's bitmap has slot 8's bit set
(header byte 17 = 1), yet `sample_in_slot` — whose shift `1 << slot` is
not reduced mod 8 — reads slot 8 as empty, so `unpack` extracts only
slots 0..7: eight output files instead of nine.  The round trip holds for
the first eight slots (each extracted file carries exactly the original
frame byte) and fails from slot 8 on. -/
theorem c1_roundtrip_drops_slots_from_8 :
    (pack 0 nineInputs).num_samples = 9 ∧
    (headerOf (pack 0 nineInputs).out).getD 17 0 = 1 ∧
    sample_in_slot (headerOf (pack 0 nineInputs).out) 8 = false ∧
    unpackArchive (pack 0 nineInputs).out 512 =
      (List.range 8).map (fun k => (k, [k + 1])) := by
  refine ⟨by decide, by decide, by decide, by decide⟩

/-- A member of an entry list is no taller than the list's height. -/
theorem depthE_le_depthL (e : Entry) (es : List Entry) (h : e ∈ es) :
    depthE e ≤ depthE.depthL es := by
  induction es with
  | nil => simp at h
  | cons x es ihe =>
    rcases List.mem_cons.mp h with rfl | h2
    · simp [depthE.depthL]
    · exact le_trans (ihe h2) (by simp [depthE.depthL])

/-- `process_file` logs exactly one "Processing file" line, whatever the
outcome. -/
theorem filesProcessed_process_file (st : PackState) (p : List Nat)
    (dec : Option AIFF) :
    filesProcessed (process_file st p dec).log = filesProcessed st.log ++ [p] := by
  unfold process_file
  cases dec with
  | none => simp [filesProcessed]
  | some s =>
    by_cases hw : s.sampwidth ≠ 1
    · simp [hw, filesProcessed]
    · by_cases hc : s.nchannels ≠ 1
      · simp [hw, hc, filesProcessed]
      · by_cases hn : s.nframes > 512 * 1024
        · simp [hw, hc, hn, filesProcessed]
        · by_cases hr : s.framerate ≠ 22050 <;>
            simp [hw, hc, hn, hr, filesProcessed]

/-- The file loop of `process_dir` processes the given entries in list
order. -/
theorem filesProcessed_foldl_files (path : List Nat) (l : List Entry)
    (st : PackState) :
    filesProcessed ((l.foldl
      (fun acc e => process_file acc (pathJoin path e.name) e.dec) st).log) =
      filesProcessed st.log ++ l.map (fun e => pathJoin path e.name) := by
  induction l generalizing st with
  | nil => simp
  | cons e l ihf =>
    simp only [List.foldl_cons, List.map_cons]
    rw [ihf, filesProcessed_process_file]
    simp [List.append_assoc]

/-- Membership through `insertByName`. -/
theorem mem_insertByName {x e : Entry} {l : List Entry} :
    x ∈ insertByName e l ↔ x = e ∨ x ∈ l := by
  induction l with
  | nil => simp [insertByName]
  | cons y ys ihi =>
    by_cases hb : bytesLe e.name y.name
    · simp [insertByName, hb]
    · simp [insertByName, hb, ihi]
      tauto

/-- Sorting permutes membership. -/
theorem mem_sortEntries {x : Entry} {l : List Entry} :
    x ∈ sortEntries l ↔ x ∈ l := by
  unfold sortEntries
  induction l with
  | nil => simp
  | cons y ys ihs =>
    simp only [List.foldr_cons, mem_insertByName, List.mem_cons, ihs]

/-- C7: for every directory tree (of height at most the recursion fuel),
the sequence of file paths `process_dir` processes — hence the order slot
indices are handed out — is exactly the order the spec prescribes: all
regular files at a level first, in lexicographic byte order, then each
subdirectory in lexicographic order, depth-first (`specDirOrder`, written
from the spec's words). -/
theorem c7_directory_order :
    ∀ (fuel : Nat) (es : List Entry) (st : PackState) (path : List Nat),
    depthE.depthL es ≤ fuel →
    filesProcessed ((process_dir fuel st path es).log) =
      filesProcessed st.log ++ specDirOrder fuel path es := by
  intro fuel
  induction fuel with
  | zero =>
    intro es st path h
    simp [process_dir, specDirOrder]
  | succ fuel ih =>
    intro es st path h
    have hdepth : ∀ e ∈ es, depthE e ≤ fuel + 1 :=
      fun e he => le_trans (depthE_le_depthL e es he) h
    have dirsAux : ∀ (ds : List Entry), (∀ e ∈ ds, depthE e ≤ fuel + 1) →
        ∀ st2 : PackState,
        filesProcessed ((ds.foldl (fun acc e => match e with
          | Entry.dir n es2 => process_dir fuel acc (pathJoin path n) es2
          | Entry.file _ _ => acc) st2).log) =
        filesProcessed st2.log ++ (ds.map (fun e => match e with
          | Entry.dir n es2 => specDirOrder fuel (pathJoin path n) es2
          | Entry.file _ _ => [])).flatten := by
      intro ds
      induction ds with
      | nil =>
        intro _ st2
        simp
      | cons e ds ihd =>
        intro hd st2
        cases e with
        | file n d =>
          simp only [List.foldl_cons, List.map_cons, List.flatten_cons]
          rw [ihd (fun x hx => hd x (List.mem_cons_of_mem _ hx)) st2]
          simp
        | dir n es2 =>
          simp only [List.foldl_cons, List.map_cons, List.flatten_cons]
          have h2 : depthE.depthL es2 ≤ fuel := by
            have h3 := hd (Entry.dir n es2) (List.mem_cons_self _ _)
            simp only [depthE] at h3
            omega
          rw [ihd (fun x hx => hd x (List.mem_cons_of_mem _ hx))
            (process_dir fuel st2 (pathJoin path n) es2)]
          rw [ih es2 st2 (pathJoin path n) h2]
          simp [List.append_assoc]
    simp only [process_dir, specDirOrder]
    rw [dirsAux (sortEntries (es.filter (fun e => !e.isFile)))
      (fun e he => hdepth e
        (List.mem_filter.mp (mem_sortEntries.mp he)).1)]
    rw [filesProcessed_foldl_files path (sortEntries (es.filter Entry.isFile))]
    have hlog : filesProcessed
        ({ st with log := st.log ++ [Ev.processingDir path] }).log =
        filesProcessed st.log := by
      simp [filesProcessed]
    rw [hlog]
    rw [List.partition_eq_filter_filter]
    have hnot : (not ∘ Entry.isFile) = (fun e => !e.isFile) := rfl
    rw [hnot]
    simp [List.append_assoc]

/-- C7 witness: the spec's example — files b, a and subdirectory z
containing c under top-level directory t — is processed in the order
t/a, t/b, t/z/c. -/
theorem c7_witness :
    depthE.depthL exDirEntries ≤ 2 ∧
    filesProcessed ((process_dir 2 packInitState [116] exDirEntries).log) =
      filesProcessed packInitState.log ++ specDirOrder 2 [116] exDirEntries ∧
    specDirOrder 2 [116] exDirEntries =
      [[116, 47, 97], [116, 47, 98], [116, 47, 122, 47, 99]] :=
  ⟨by decide, c7_directory_order 2 exDirEntries packInitState [116] (by decide),
    by decide⟩
